import Mathlib

/-!
Verification of the request-rule evaluation engine of the `optic` repository.

The definitions below shallowly embed the TypeScript sources:

* `getRequestRules`, `createRequestBodyResult`, `createRequestPropertyResult`
  and `runRequestRules` are translated from
  `rule-runner/request.ts` (source file `part_002`).
* `generateRuleRunner` is translated from `generate-rule-runner.ts`
  (source file `part_000`).
* Collaborators of those files that are not part of the provided sources
  (the assertion collector/executor, `createRulesetMatcher`, `getRuleAliases`,
  the operation contexts, and the document-model accessors `createOperation` /
  `createRequest`) are modelled from the specification; each such definition
  carries a doc comment starting with `Modelled from the spec:`.

Mutation-style TypeScript loops (`results.push(...)` inside `for` loops) are
translated as `List.foldl` over an accumulator; the structural `bind`-form
companions (`beforePassResults`, `afterPassResults`, ...) are related to the
accumulator form by the theorems further below.
-/

namespace Optic

/-- The change classification attached to a node of the change tree
(`change?.changeType` in the sources); `none` models a missing change object
(an unchanged entity). -/
inductive ChangeType where
  | added
  | changed
  | removed
  deriving DecidableEq, Repr

/-- Lifecycle kind of a registered assertion
(requirement / added / changed / removed). -/
inductive AssertionLifecycle where
  | requirement
  | added
  | changed
  | removed
  deriving DecidableEq, Repr

/-- A failure raised by a user-supplied predicate: either a structured
assertion failure carrying a message (`RuleError` in the sources) or an
unstructured runtime exception. -/
inductive RuleFailure where
  | ruleError (message : String)
  | exception (message : String)
  deriving DecidableEq, Repr

/-- The message carried by a raised failure. -/
def RuleFailure.message : RuleFailure → String
  | .ruleError m => m
  | .exception m => m

/-- The operation instance handed to contexts and result constructors
(`Operation` in `types.ts`); only the fields consumed by the request runner
are modelled. -/
structure Operation where
  method : String
  path : String
  deriving DecidableEq, Repr

/-- Conceptual location of a field (`conceptualLocation` with its
`jsonSchemaTrail`). -/
structure ConceptualLocation where
  jsonSchemaTrail : List String
  deriving DecidableEq, Repr

/-- Location of a field instance. -/
structure FieldLocation where
  conceptualLocation : ConceptualLocation
  deriving DecidableEq, Repr

/-- A property (field) instance of a request body (`Field` in `types.ts`);
`value` stands for the raw schema payload the user predicates may inspect. -/
structure Field where
  location : FieldLocation
  value : String
  deriving DecidableEq, Repr

/-- A request-body instance (`RequestBody` in `types.ts`): its content type,
its properties as an insertion-ordered key/field map (the JS `Map`), and an
opaque stand-in for the remaining payload. -/
structure RequestBody where
  contentType : String
  properties : List (String × Field)
  raw : String
  deriving DecidableEq, Repr

/-- The custom rule context supplied by the caller (`customRuleContext : any`);
it is only passed through, never inspected by the engine. -/
abbrev CustomRuleContext := String

/-- The context a matcher or rule body receives: the before-context carries
the operation and the custom context, the after-context additionally carries
the operation's own change classification.  Modelled from the spec
(`createBeforeOperationContext` / `createAfterOperationContext` in
`rule-runner/utils.ts` are not part of the provided sources). -/
inductive RuleContext where
  | beforeCtx (operation : Operation) (custom : CustomRuleContext)
  | afterCtx (operation : Operation) (custom : CustomRuleContext)
      (operationChangeType : Option ChangeType)

/-- Modelled from the spec: `createBeforeOperationContext` builds the
before-evaluation-context from the operation metadata and the caller-supplied
custom context. -/
def createBeforeOperationContext (operation : Operation)
    (custom : CustomRuleContext) : RuleContext :=
  .beforeCtx operation custom

/-- Modelled from the spec: `createAfterOperationContext` builds the
after-evaluation-context: the same data plus the operation's own change
classification. -/
def createAfterOperationContext (operation : Operation)
    (custom : CustomRuleContext) (operationChangeType : Option ChangeType) :
    RuleContext :=
  .afterCtx operation custom operationChangeType

/-- Outcome of a single assertion execution, as produced by the assertion
executor (`AssertionResult` in `assertions.ts`). -/
structure AssertionResult where
  passed : Bool
  error : Option String
  type : AssertionLifecycle
  condition : String
  changeOrFact : Option ChangeType
  deriving DecidableEq, Repr

/-- Modelled from the spec: each predicate invocation is wrapped individually
(§4.3/§7): a predicate that returns yields `passed := true`; a raised failure
— structured or unstructured — yields `passed := false` with `error` set to
its message.  The wrapper is total, so an assertion execution never crashes
the evaluation. -/
def runAssertion (type : AssertionLifecycle) (condition : String)
    (changeOrFact : Option ChangeType) (outcome : Except RuleFailure Unit) :
    AssertionResult :=
  match outcome with
  | .ok _ =>
    { passed := true, error := none, type := type, condition := condition,
      changeOrFact := changeOrFact }
  | .error f =>
    { passed := false, error := some f.message, type := type,
      condition := condition, changeOrFact := changeOrFact }

/-- The assertion collector for one target entity type `α` after a rule body
ran: the ordered lists of registered assertions, keyed by lifecycle kind.
Each registration is a description together with the user predicate; `changed`
predicates take the before- and after-instance, the others a single instance.
Modelled from the spec (`createRequestAssertions` / the assertion DSL in
`assertions.ts` are not part of the provided sources). -/
structure Assertions (α : Type) where
  requirement : List (String × (α → Except RuleFailure Unit))
  added : List (String × (α → Except RuleFailure Unit))
  changed : List (String × (α → α → Except RuleFailure Unit))
  removed : List (String × (α → Except RuleFailure Unit))

/-- Modelled from the spec: `runBefore` (§4.3 `runBeforePass`) executes the
`requirement` assertions against the before-instance unconditionally, and the
`removed` assertions only when the entity's classification is `Removed`.
All registered assertions of an applicable kind run; none is skipped because
of an earlier failure. -/
def Assertions.runBefore {α : Type} (a : Assertions α) (instanceBefore : α)
    (change : Option ChangeType) : List AssertionResult :=
  a.requirement.map
      (fun da => runAssertion .requirement da.1 change (da.2 instanceBefore))
    ++ (if change = some ChangeType.removed then
          a.removed.map (fun da =>
            runAssertion .removed da.1 change (da.2 instanceBefore))
        else [])

/-- Modelled from the spec: `runAfter` (§4.3 `runAfterPass`) executes the
`requirement` assertions against the after-instance unconditionally, the
`added` assertions only when the classification is `Added`, and the `changed`
assertions only when the classification is `Changed`, passing both instances
(the spec has the `changed` predicate take the before- and after-instance, so
a `changed` assertion runs only when the corresponding before-instance
exists).  All registered assertions of an applicable kind run. -/
def Assertions.runAfter {α : Type} (a : Assertions α)
    (instanceBefore : Option α) (instanceAfter : α)
    (change : Option ChangeType) : List AssertionResult :=
  a.requirement.map
      (fun da => runAssertion .requirement da.1 change (da.2 instanceAfter))
    ++ (if change = some ChangeType.added then
          a.added.map (fun da =>
            runAssertion .added da.1 change (da.2 instanceAfter))
        else [])
    ++ (match change, instanceBefore with
        | some ChangeType.changed, some b =>
          a.changed.map (fun da =>
            runAssertion .changed da.1 change (da.2 b instanceAfter))
        | _, _ => [])

/-- The collector a request-rule body populates: body assertions and property
assertions (`requestAssertions.body` / `requestAssertions.property`). -/
structure RequestAssertions where
  body : Assertions RequestBody
  property : Assertions Field

/-- Modelled from the spec: lifecycle label text used when rendering the
`where` string (`assertionLifecycleToText` in `assertions.ts` is not part of
the provided sources; the spec gives the labels "added", "changed", ...). -/
def assertionLifecycleToText : AssertionLifecycle → String
  | .requirement => "requirement"
  | .added => "added"
  | .changed => "changed"
  | .removed => "removed"

/-- A request rule as declared by a rule author (`RequestRule` in
`rules/request-rule.ts`): name, optional docs link, optional matcher
predicate over request-body instances, and the rule body.  The body is
modelled as the function from the invocation context to the collector it
populates (a fresh collector is created for every invocation, so the
collector its run produces is a function of the context alone). -/
structure RequestRule where
  name : String
  docsLink : Option String
  matches_ : Option (RequestBody → RuleContext → Bool)
  rule : RuleContext → RequestAssertions

/-- A ruleset member: the contained rules may target any entity kind; only
request rules are relevant to the request runner. -/
inductive RulesetMember where
  | request (rule : RequestRule)
  | other

/-- A ruleset (`Ruleset` in `rules/ruleset.ts`, modelled from the spec's
declaration interface: name, optional shared matcher, optional shared docs
link, and the ordered member rules, stored as declared). -/
structure Ruleset where
  name : String
  docsLink : Option String
  matches_ : Option (RequestBody → RuleContext → Bool)
  rules : List RulesetMember

/-- An entry of the rule list handed to the runner: a standalone request
rule, a ruleset, or a rule of another target kind. -/
inductive Rules where
  | request (rule : RequestRule)
  | ruleset (ruleset : Ruleset)
  | other

/-- Modelled from the spec: `createRulesetMatcher` (`rule-runner/utils.ts`)
combines the owning ruleset's matcher with the rule's own matcher via logical
AND; a missing matcher is treated as always-true. -/
def createRulesetMatcher
    (ruleMatcher rulesetMatcher : Option (RequestBody → RuleContext → Bool)) :
    RequestBody → RuleContext → Bool :=
  fun item context =>
    (match rulesetMatcher with
      | some m => m item context
      | none => true)
    && (match ruleMatcher with
      | some m => m item context
      | none => true)

/-- Modelled from the spec: `getRuleAliases` (`rule-runner/utils.ts`) returns
the alias chain recorded on a rule contained in a ruleset — the chain of
ancestor names, here the owning ruleset's name (the rule's own name is kept
in its `name` field). -/
def getRuleAliases (rulesetName : String) (ruleName : String) : List String :=
  [rulesetName]

/-- A flattened request rule: the rule data together with the ruleset alias
chain (`RequestRule & RulesetData` in the sources). -/
structure FlatRequestRule extends RequestRule where
  aliases : List String

/-- Modelled from the spec: the traceable name reported for a flattened rule
joins the alias chain with the rule's own name using " > "
(a rule nested in a ruleset reports "<ruleset.name> > <rule.name>"). -/
def traceableName (rule : FlatRequestRule) : String :=
  String.intercalate " > " (rule.aliases ++ [rule.name])

/-- `getRequestRules` (from `rule-runner/request.ts`): flattens the rule /
ruleset list into request rules.  A standalone request rule passes through
with an empty alias chain; every request rule of a ruleset is pushed with the
combined matcher, the alias chain, and the docs-link fallback; other rules
are skipped.  The `for` loops with `push` are translated as `foldl`. -/
def getRequestRules (rules : List Rules) : List FlatRequestRule :=
  rules.foldl
    (fun requestRules ruleOrRuleset =>
      match ruleOrRuleset with
      | Rules.request r => requestRules ++ [{ toRequestRule := r, aliases := [] }]
      | Rules.ruleset rs =>
          rs.rules.foldl
            (fun acc member =>
              match member with
              | RulesetMember.request rule =>
                  acc ++ [{
                    toRequestRule := { rule with
                      matches_ := some (createRulesetMatcher rule.matches_ rs.matches_),
                      docsLink := rule.docsLink.orElse (fun _ => rs.docsLink) },
                    aliases := getRuleAliases rs.name rule.name }]
              | RulesetMember.other => acc)
            requestRules
      | Rules.other => requestRules)
    []

/-- Change-tree node for one field of a body (`rule-runner-types.ts`):
the subset consumed by the request runner (`?.change`). -/
structure FieldNode where
  change : Option ChangeType

/-- Change-tree node for one content-typed body: its change classification
and its fields keyed by property key (the JS `Map`, insertion ordered). -/
structure BodyNode where
  change : Option ChangeType
  fields : List (String × FieldNode)

/-- Change-tree node for the request of one operation (`RequestNode`):
the bodies keyed by content type (insertion ordered). -/
structure RequestNode where
  bodies : List (String × BodyNode)

/-- Change-tree node for the operation being visited (`EndpointNode`): the
subset the request runner consumes — `operation.change?.changeType`. -/
structure EndpointNode where
  change : Option ChangeType

/-- Modelled from the spec: the document-model provider boundary.
`createOperation(operation, which, spec)` and
`createRequest(request, contentType, which, spec)` from
`data-constructors.ts` are not part of the provided sources; the spec's §6
describes the provider as yielding, for each of the before/after documents,
the operation instance when that side defines it and, per content type, the
request-body instance when that side defines it.  This structure records
those lookups for the operation and request node the runner was invoked on. -/
structure DocumentModel where
  beforeOperation : Option Operation
  afterOperation : Option Operation
  beforeRequest : String → Option RequestBody
  afterRequest : String → Option RequestBody

/-- The uniform reportable record (`Result` from `openapi-utilities`), the
fields as assembled by the request runner; `where_` renders the source's
`where` field (a Lean keyword). -/
structure Result where
  where_ : String
  isMust : Bool
  change : Option ChangeType
  name : String
  condition : String
  passed : Bool
  error : Option String
  docsLink : Option String
  isShould : Bool
  deriving DecidableEq, Repr

/-- Character-wise uppercase map: a kernel-computable model of the JS
`method.toUpperCase()` call of the result constructors (identical on the
ASCII method names that occur in the documents). -/
def toUpperCase (s : String) : String :=
  String.mk (s.data.map Char.toUpper)

/-- `createRequestBodyResult` (from `rule-runner/request.ts`): assembles the
Result for one body assertion outcome. -/
def createRequestBodyResult (assertionResult : AssertionResult)
    (request : RequestBody) (operation : Operation) (rule : RequestRule) :
    Result :=
  { where_ := assertionLifecycleToText assertionResult.type
      ++ " request with content-type: " ++ request.contentType
      ++ " in operation: " ++ toUpperCase operation.method ++ " " ++ operation.path
    isMust := true
    change := assertionResult.changeOrFact
    name := rule.name
    condition := assertionResult.condition
    passed := assertionResult.passed
    error := assertionResult.error
    docsLink := rule.docsLink
    isShould := false }

/-- `createRequestPropertyResult` (from `rule-runner/request.ts`): assembles
the Result for one property assertion outcome. -/
def createRequestPropertyResult (assertionResult : AssertionResult)
    (property : Field) (request : RequestBody) (operation : Operation)
    (rule : RequestRule) : Result :=
  { where_ := assertionLifecycleToText assertionResult.type
      ++ " property: "
      ++ String.intercalate "/" property.location.conceptualLocation.jsonSchemaTrail
      ++ " request body: " ++ request.contentType
      ++ " in operation: " ++ toUpperCase operation.method ++ " " ++ operation.path
    isMust := true
    change := assertionResult.changeOrFact
    name := rule.name
    condition := assertionResult.condition
    passed := assertionResult.passed
    error := assertionResult.error
    docsLink := rule.docsLink
    isShould := false }

/-- The matcher guard of the runner:
`!requestRule.matches || requestRule.matches(instance, context)`. -/
def matcherAccepts (matcher : Option (RequestBody → RuleContext → Bool))
    (instance_ : RequestBody) (context : RuleContext) : Bool :=
  match matcher with
  | none => true
  | some m => m instance_ context

/-- `request.bodies.get(contentType)?.change || null`. -/
def bodyChangeAt (request : RequestNode) (contentType : String) :
    Option ChangeType :=
  (List.lookup contentType request.bodies).bind (fun b => b.change)

/-- `request.bodies.get(contentType)?.fields.get(key)?.change || null`. -/
def fieldChangeAt (request : RequestNode) (contentType : String)
    (key : String) : Option ChangeType :=
  ((List.lookup contentType request.bodies).bind
    (fun b => List.lookup key b.fields)).bind (fun f => f.change)

/-- Body of the before-pass content-type loop of `runRequestRules`
(`for (const contentType of request.bodies.keys())` under
`if (beforeOperation)`), accumulator style: when the before-instance of the
request body exists and the matcher accepts it, push one Result per body
assertion outcome of `runBefore`, then, per property of the before body,
one Result per property assertion outcome of `runBefore`. -/
def runBeforeContentTypeStep (requestRule : FlatRequestRule)
    (beforeRulesContext : RuleContext) (requestAssertions : RequestAssertions)
    (request : RequestNode) (dm : DocumentModel) (beforeOperation : Operation)
    (results : List Result) (contentType : String) : List Result :=
  match dm.beforeRequest contentType with
  | none => results
  | some beforeRequest =>
    if matcherAccepts requestRule.matches_ beforeRequest beforeRulesContext then
      let results := results ++
        (requestAssertions.body.runBefore beforeRequest
            (bodyChangeAt request contentType)).map
          (fun assertionResult =>
            createRequestBodyResult assertionResult beforeRequest
              beforeOperation requestRule.toRequestRule)
      beforeRequest.properties.foldl
        (fun results kp =>
          results ++
            (requestAssertions.property.runBefore kp.2
                (fieldChangeAt request contentType kp.1)).map
              (fun assertionResult =>
                createRequestPropertyResult assertionResult kp.2 beforeRequest
                  beforeOperation requestRule.toRequestRule))
        results
    else results

/-- Body of the after-pass content-type loop of `runRequestRules`
(under `if (afterOperation)`): the corresponding before-instance of the same
content type is looked up (`maybeBeforeRequest`) and handed to `runAfter`;
per property of the after body, the before-property of the same key
(`maybeBeforeRequest?.properties.get(key) || null`) is handed to the
property `runAfter`. -/
def runAfterContentTypeStep (requestRule : FlatRequestRule)
    (afterRulesContext : RuleContext) (requestAssertions : RequestAssertions)
    (request : RequestNode) (dm : DocumentModel) (afterOperation : Operation)
    (results : List Result) (contentType : String) : List Result :=
  let maybeBeforeRequest := dm.beforeRequest contentType
  match dm.afterRequest contentType with
  | none => results
  | some afterRequest =>
    if matcherAccepts requestRule.matches_ afterRequest afterRulesContext then
      let results := results ++
        (requestAssertions.body.runAfter maybeBeforeRequest afterRequest
            (bodyChangeAt request contentType)).map
          (fun assertionResult =>
            createRequestBodyResult assertionResult afterRequest
              afterOperation requestRule.toRequestRule)
      afterRequest.properties.foldl
        (fun results kp =>
          let maybeBeforeProperty :=
            maybeBeforeRequest.bind (fun br => List.lookup kp.1 br.properties)
          results ++
            (requestAssertions.property.runAfter maybeBeforeProperty kp.2
                (fieldChangeAt request contentType kp.1)).map
              (fun assertionResult =>
                createRequestPropertyResult assertionResult kp.2 afterRequest
                  afterOperation requestRule.toRequestRule))
        results
    else results

/-- The before-pass block of `runRequestRules` for one flattened rule
(`if (beforeOperation) { ... }`): invoke the rule body once with a fresh
collector and the before-context, then walk the content types. -/
def runBeforePassBlock (requestRule : FlatRequestRule) (request : RequestNode)
    (customRuleContext : CustomRuleContext) (dm : DocumentModel)
    (results : List Result) : List Result :=
  match dm.beforeOperation with
  | none => results
  | some beforeOperation =>
    let beforeRulesContext :=
      createBeforeOperationContext beforeOperation customRuleContext
    let requestAssertions := requestRule.rule beforeRulesContext
    (request.bodies.map Prod.fst).foldl
      (runBeforeContentTypeStep requestRule beforeRulesContext
        requestAssertions request dm beforeOperation)
      results

/-- The after-pass block of `runRequestRules` for one flattened rule
(`if (afterOperation) { ... }`): invoke the rule body again with a fresh
collector and the after-context, then walk the content types. -/
def runAfterPassBlock (operation : EndpointNode) (requestRule : FlatRequestRule)
    (request : RequestNode) (customRuleContext : CustomRuleContext)
    (dm : DocumentModel) (results : List Result) : List Result :=
  match dm.afterOperation with
  | none => results
  | some afterOperation =>
    let afterRulesContext :=
      createAfterOperationContext afterOperation customRuleContext
        operation.change
    let requestAssertions := requestRule.rule afterRulesContext
    (request.bodies.map Prod.fst).foldl
      (runAfterContentTypeStep requestRule afterRulesContext
        requestAssertions request dm afterOperation)
      results

/-- `runRequestRules` (from `rule-runner/request.ts`): flatten the rules,
then for every flattened request rule run the before-pass block followed by
the after-pass block, pushing Results into one flat list.  The
before/after operation and request-body instances of the source's
`createOperation` / `createRequest` calls are supplied by the document
model `dm`. -/
def runRequestRules (operation : EndpointNode) (request : RequestNode)
    (rules : List Rules) (customRuleContext : CustomRuleContext)
    (dm : DocumentModel) : List Result :=
  let requestRules := getRequestRules rules
  requestRules.foldl
    (fun results requestRule =>
      runAfterPassBlock operation requestRule request customRuleContext dm
        (runBeforePassBlock requestRule request customRuleContext dm results))
    []

/-- Structural (append-free) form of the before-pass contribution of one
content type: empty when no before-instance of the request body exists or
the matcher rejects it; otherwise the body results followed by the property
results, properties in insertion order. -/
def beforeContentTypeResults (requestRule : FlatRequestRule)
    (beforeRulesContext : RuleContext) (requestAssertions : RequestAssertions)
    (request : RequestNode) (dm : DocumentModel) (beforeOperation : Operation)
    (contentType : String) : List Result :=
  match dm.beforeRequest contentType with
  | none => []
  | some beforeRequest =>
    if matcherAccepts requestRule.matches_ beforeRequest beforeRulesContext then
      (requestAssertions.body.runBefore beforeRequest
          (bodyChangeAt request contentType)).map
        (fun assertionResult =>
          createRequestBodyResult assertionResult beforeRequest
            beforeOperation requestRule.toRequestRule)
      ++ beforeRequest.properties.flatMap
        (fun kp =>
          (requestAssertions.property.runBefore kp.2
              (fieldChangeAt request contentType kp.1)).map
            (fun assertionResult =>
              createRequestPropertyResult assertionResult kp.2 beforeRequest
                beforeOperation requestRule.toRequestRule))
    else []

/-- Structural form of the after-pass contribution of one content type:
empty when no after-instance exists or the matcher rejects it; otherwise the
body results (with the before-instance of the same content type handed to
`runAfter`) followed by the property results (each with the before-property
of the same key), properties in insertion order. -/
def afterContentTypeResults (requestRule : FlatRequestRule)
    (afterRulesContext : RuleContext) (requestAssertions : RequestAssertions)
    (request : RequestNode) (dm : DocumentModel) (afterOperation : Operation)
    (contentType : String) : List Result :=
  match dm.afterRequest contentType with
  | none => []
  | some afterRequest =>
    if matcherAccepts requestRule.matches_ afterRequest afterRulesContext then
      (requestAssertions.body.runAfter (dm.beforeRequest contentType) afterRequest
          (bodyChangeAt request contentType)).map
        (fun assertionResult =>
          createRequestBodyResult assertionResult afterRequest
            afterOperation requestRule.toRequestRule)
      ++ afterRequest.properties.flatMap
        (fun kp =>
          (requestAssertions.property.runAfter
              ((dm.beforeRequest contentType).bind
                (fun br => List.lookup kp.1 br.properties))
              kp.2 (fieldChangeAt request contentType kp.1)).map
            (fun assertionResult =>
              createRequestPropertyResult assertionResult kp.2 afterRequest
                afterOperation requestRule.toRequestRule))
    else []

/-- Structural form of one rule's whole before pass: empty when the before
document does not define the operation; otherwise the rule body is invoked
once with the before-context and the content types are visited in insertion
order. -/
def beforePassResults (requestRule : FlatRequestRule) (request : RequestNode)
    (customRuleContext : CustomRuleContext) (dm : DocumentModel) :
    List Result :=
  match dm.beforeOperation with
  | none => []
  | some beforeOperation =>
    let beforeRulesContext :=
      createBeforeOperationContext beforeOperation customRuleContext
    let requestAssertions := requestRule.rule beforeRulesContext
    (request.bodies.map Prod.fst).flatMap
      (beforeContentTypeResults requestRule beforeRulesContext
        requestAssertions request dm beforeOperation)

/-- Structural form of one rule's whole after pass: empty when the after
document does not define the operation; otherwise the rule body is invoked
once with the after-context (which carries the operation's own change
classification) and the content types are visited in insertion order. -/
def afterPassResults (operation : EndpointNode) (requestRule : FlatRequestRule)
    (request : RequestNode) (customRuleContext : CustomRuleContext)
    (dm : DocumentModel) : List Result :=
  match dm.afterOperation with
  | none => []
  | some afterOperation =>
    let afterRulesContext :=
      createAfterOperationContext afterOperation customRuleContext
        operation.change
    let requestAssertions := requestRule.rule afterRulesContext
    (request.bodies.map Prod.fst).flatMap
      (afterContentTypeResults requestRule afterRulesContext
        requestAssertions request dm afterOperation)

/-- A named ruleset reference in the CLI configuration
(an entry of `config.ruleset` in `generate-rule-runner.ts`). -/
structure RulesetRef where
  name : String
  deriving DecidableEq, Repr

/-- `isLocalJsFile` (from `generate-rule-runner.ts`). -/
def isLocalJsFile (name : String) : Bool :=
  name.endsWith ".js"

/-- A hosted ruleset record returned by the optic client
(`response.rulesets` entries). -/
structure HostedRulesetEntry where
  name : String
  uploaded_at : String
  url : String
  deriving DecidableEq, Repr

/-- The value returned by the ruleset-resolution collaborator
`RulesetConfig.prepareRulesets`: the resolved rulesets and the per-reference
warnings for unresolved names. -/
structure PrepareRulesetsResult where
  rulesets : List Ruleset
  warnings : List String

/-- What `generateRuleRunner` produces, observably: the rulesets the
returned `RuleRunner` was constructed with, and the lines printed through
`console.error` (the warning display loop), in order. -/
structure GenerateRuleRunnerOutcome where
  runner : List Ruleset
  errorLog : List String

/-- The classification loop of `generateRuleRunner` over `config.ruleset`:
a name found in the standard catalog is skipped, a `.js` name is recorded as
a local ruleset (the path is the name), every other name is queued for
fetching.  Returns `(rulesToFetch, localRulesets)`. -/
def classifyRulesetRefs (standardRulesets : List String)
    (config : List RulesetRef) : List String × List (String × String) :=
  config.foldl
    (fun (acc : List String × List (String × String)) rule =>
      if standardRulesets.contains rule.name then acc
      else if isLocalJsFile rule.name then
        (acc.1, acc.2 ++ [(rule.name, rule.name)])
      else (acc.1 ++ [rule.name], acc.2))
    ([], [])

/-- The loop of `generateRuleRunner` over the client response: every present
hosted ruleset is recorded as `(name, uploaded_at, url)`. -/
def collectHostedRulesets (response : List (Option HostedRulesetEntry)) :
    List (String × String × String) :=
  response.foldl
    (fun acc h =>
      match h with
      | some hostedRuleset =>
          acc ++ [(hostedRuleset.name, hostedRuleset.uploaded_at,
            hostedRuleset.url)]
      | none => acc)
    []

/-- `generateRuleRunner` (from `generate-rule-runner.ts`).  Its external
collaborators are passed as functions: `standardRulesets` holds the names of
the standard catalog, `getManyRulesetsByName` is the optic client fetch, and
`prepareRulesets` is the ruleset-resolution collaborator
(`RulesetConfig.prepareRulesets`, external to the core).  The `for` loop
printing `results.warnings` through `console.error` is translated as the
`foldl` building `errorLog`. -/
def generateRuleRunner (config : List RulesetRef) (checksEnabled : Bool)
    (standardRulesets : List String)
    (getManyRulesetsByName : List String → List (Option HostedRulesetEntry))
    (prepareRulesets : List RulesetRef → List (String × String) →
      List (String × String × String) → PrepareRulesetsResult) :
    GenerateRuleRunnerOutcome :=
  if checksEnabled then
    let classified := classifyRulesetRefs standardRulesets config
    let rulesToFetch := classified.1
    let localRulesets := classified.2
    let hostedRulesets :=
      collectHostedRulesets (getManyRulesetsByName rulesToFetch)
    let results := prepareRulesets config localRulesets hostedRulesets
    { runner := results.rulesets,
      errorLog := results.warnings.foldl (fun log warning => log ++ [warning]) [] }
  else
    { runner := [], errorLog := [] }

/-- Concrete inputs used by the closed witness and counterexample theorems
below: a sample operation. -/
def sampleOperation : Operation :=
  { method := "get", path := "/api/users" }

/-- A sample property instance. -/
def sampleField : Field :=
  { location := { conceptualLocation := { jsonSchemaTrail := ["properties", "hello"] } },
    value := "string" }

/-- A sample request body with one property. -/
def sampleBody : RequestBody :=
  { contentType := "application/json",
    properties := [("hello", sampleField)],
    raw := "object" }

/-- The body change node of the sample request (unchanged body, one
unchanged field). -/
def sampleBodyNode : BodyNode :=
  { change := none, fields := [("hello", { change := none })] }

/-- A sample request change node with one content type. -/
def sampleRequestNode : RequestNode :=
  { bodies := [("application/json", sampleBodyNode)] }

/-- A sample endpoint change node (unchanged operation). -/
def sampleEndpointNode : EndpointNode :=
  { change := none }

/-- A sample document model defining the operation and the body on both
sides. -/
def sampleDocumentModel : DocumentModel :=
  { beforeOperation := some sampleOperation,
    afterOperation := some sampleOperation,
    beforeRequest := fun ct =>
      if ct = "application/json" then some sampleBody else none,
    afterRequest := fun ct =>
      if ct = "application/json" then some sampleBody else none }

/-- A sample rule body registering one body requirement assertion that
always passes. -/
def sampleRuleBody : RuleContext → RequestAssertions := fun _ =>
  { body := { requirement := [("has a type", fun _ => Except.ok ())],
              added := [], changed := [], removed := [] },
    property := { requirement := [], added := [], changed := [], removed := [] } }

/-- The sample rule named as in the spec's aliasing example. -/
def noRequiredRemovalRule : RequestRule :=
  { name := "no-required-removal", docsLink := none, matches_ := none,
    rule := sampleRuleBody }

/-- The sample ruleset named as in the spec's aliasing example, containing
`noRequiredRemovalRule`. -/
def breakingChangesRuleset : Ruleset :=
  { name := "Breaking Changes", docsLink := none, matches_ := none,
    rules := [RulesetMember.request noRequiredRemovalRule] }

/-- A sample rule whose matcher rejects every request body. -/
def rejectAllRule : RequestRule :=
  { name := "never-matches", docsLink := none,
    matches_ := some (fun _ _ => false), rule := sampleRuleBody }

/-- A sample rule whose matcher accepts every request body. -/
def acceptAllRule : RequestRule :=
  { name := "always-matches", docsLink := none,
    matches_ := some (fun _ _ => true), rule := sampleRuleBody }

/-- The first Result produced when the sample ruleset is run against the
sample inputs (used as an explicit member of that run). -/
def sampleNestedResult : Result :=
  { where_ := "requirement request with content-type: application/json in operation: GET /api/users",
    isMust := true, change := none, name := "no-required-removal",
    condition := "has a type", passed := true, error := none,
    docsLink := none, isShould := false }

/-! ### Relating the accumulator form of the runner to its structural form -/

/-- A fold that only ever appends to its accumulator computes the
accumulator followed by the flat map of its per-element contribution. -/
theorem foldl_push_eq_flatMap {α β : Type _} (step : List β → α → List β)
    (g : α → List β) (h : ∀ acc x, step acc x = acc ++ g x) :
    ∀ (l : List α) (acc : List β), l.foldl step acc = acc ++ l.flatMap g := by
  intro l
  induction l with
  | nil => intro acc; simp
  | cons x xs ih =>
      intro acc
      rw [List.foldl_cons, h, ih, List.flatMap_cons, List.append_assoc]

/-- The before-pass content-type loop body appends exactly the structural
per-content-type contribution. -/
theorem runBeforeContentTypeStep_eq (requestRule : FlatRequestRule)
    (ctx : RuleContext) (a : RequestAssertions) (request : RequestNode)
    (dm : DocumentModel) (beforeOperation : Operation) (results : List Result)
    (contentType : String) :
    runBeforeContentTypeStep requestRule ctx a request dm beforeOperation
        results contentType
      = results ++ beforeContentTypeResults requestRule ctx a request dm
          beforeOperation contentType := by
  unfold runBeforeContentTypeStep beforeContentTypeResults
  cases hbr : dm.beforeRequest contentType with
  | none => simp
  | some beforeRequest =>
      by_cases hm : matcherAccepts requestRule.matches_ beforeRequest ctx
      · simp only [hm, if_true]
        rw [foldl_push_eq_flatMap _ _ (fun acc kp => rfl), List.append_assoc]
      · simp [hm]

/-- The after-pass content-type loop body appends exactly the structural
per-content-type contribution. -/
theorem runAfterContentTypeStep_eq (requestRule : FlatRequestRule)
    (ctx : RuleContext) (a : RequestAssertions) (request : RequestNode)
    (dm : DocumentModel) (afterOperation : Operation) (results : List Result)
    (contentType : String) :
    runAfterContentTypeStep requestRule ctx a request dm afterOperation
        results contentType
      = results ++ afterContentTypeResults requestRule ctx a request dm
          afterOperation contentType := by
  unfold runAfterContentTypeStep afterContentTypeResults
  cases har : dm.afterRequest contentType with
  | none => simp
  | some afterRequest =>
      by_cases hm : matcherAccepts requestRule.matches_ afterRequest ctx
      · simp only [hm, if_true]
        rw [foldl_push_eq_flatMap _ _ (fun acc kp => rfl), List.append_assoc]
      · simp [hm]

/-- The before-pass block of one rule appends exactly the structural
before-pass contribution. -/
theorem runBeforePassBlock_eq (requestRule : FlatRequestRule)
    (request : RequestNode) (custom : CustomRuleContext) (dm : DocumentModel)
    (results : List Result) :
    runBeforePassBlock requestRule request custom dm results
      = results ++ beforePassResults requestRule request custom dm := by
  unfold runBeforePassBlock beforePassResults
  cases dm.beforeOperation with
  | none => simp
  | some beforeOperation =>
      exact foldl_push_eq_flatMap _ _
        (fun acc ct => runBeforeContentTypeStep_eq _ _ _ _ _ _ acc ct) _ results

/-- The after-pass block of one rule appends exactly the structural
after-pass contribution. -/
theorem runAfterPassBlock_eq (operation : EndpointNode)
    (requestRule : FlatRequestRule) (request : RequestNode)
    (custom : CustomRuleContext) (dm : DocumentModel) (results : List Result) :
    runAfterPassBlock operation requestRule request custom dm results
      = results ++ afterPassResults operation requestRule request custom dm := by
  unfold runAfterPassBlock afterPassResults
  cases dm.afterOperation with
  | none => simp
  | some afterOperation =>
      exact foldl_push_eq_flatMap _ _
        (fun acc ct => runAfterContentTypeStep_eq _ _ _ _ _ _ acc ct) _ results

/-- Backbone: the accumulator-style runner equals the structural composition:
per flattened rule, the before-pass results followed by the after-pass
results, rules in flattening order. -/
theorem runRequestRules_structural (operation : EndpointNode)
    (request : RequestNode) (rules : List Rules)
    (custom : CustomRuleContext) (dm : DocumentModel) :
    runRequestRules operation request rules custom dm
      = (getRequestRules rules).flatMap
          (fun r => beforePassResults r request custom dm
            ++ afterPassResults operation r request custom dm) := by
  unfold runRequestRules
  rw [foldl_push_eq_flatMap _ _
    (fun acc r => by
      rw [runBeforePassBlock_eq, runAfterPassBlock_eq, List.append_assoc]),
    List.nil_append]

/-- `getRequestRules` in structural form: the declaration list flat-mapped
to its request-rule contributions, rulesets expanded in place. -/
theorem getRequestRules_eq_flatMap (rules : List Rules) :
    getRequestRules rules
      = rules.flatMap (fun ruleOrRuleset =>
          match ruleOrRuleset with
          | Rules.request r => [{ toRequestRule := r, aliases := [] }]
          | Rules.ruleset rs =>
              rs.rules.flatMap (fun member =>
                match member with
                | RulesetMember.request rule =>
                    [{
                      toRequestRule := { rule with
                        matches_ := some (createRulesetMatcher rule.matches_ rs.matches_),
                        docsLink := rule.docsLink.orElse (fun _ => rs.docsLink) },
                      aliases := getRuleAliases rs.name rule.name }]
                | RulesetMember.other => [])
          | Rules.other => []) := by
  unfold getRequestRules
  refine (foldl_push_eq_flatMap _ _ ?_ rules []).trans (List.nil_append _)
  intro acc x
  cases x with
  | request r => rfl
  | ruleset rs =>
      exact foldl_push_eq_flatMap _ _
        (fun acc2 member => by
          cases member with
          | request rule => rfl
          | other => exact (List.append_nil acc2).symm)
        rs.rules acc
  | other => exact (List.append_nil acc).symm

/-- `beforeContentTypeResults` in `Option.elim` form. -/
theorem beforeContentTypeResults_elim (requestRule : FlatRequestRule)
    (ctx : RuleContext) (a : RequestAssertions) (request : RequestNode)
    (dm : DocumentModel) (beforeOperation : Operation) (contentType : String) :
    beforeContentTypeResults requestRule ctx a request dm beforeOperation
        contentType
      = Option.elim (dm.beforeRequest contentType) []
          (fun beforeRequest =>
            if matcherAccepts requestRule.matches_ beforeRequest ctx then
              (a.body.runBefore beforeRequest
                  (bodyChangeAt request contentType)).map
                (fun assertionResult =>
                  createRequestBodyResult assertionResult beforeRequest
                    beforeOperation requestRule.toRequestRule)
              ++ beforeRequest.properties.flatMap
                (fun kp =>
                  (a.property.runBefore kp.2
                      (fieldChangeAt request contentType kp.1)).map
                    (fun assertionResult =>
                      createRequestPropertyResult assertionResult kp.2
                        beforeRequest beforeOperation requestRule.toRequestRule))
            else []) := by
  unfold beforeContentTypeResults
  cases dm.beforeRequest contentType <;> rfl

/-- `afterContentTypeResults` in `Option.elim` form: `runAfter` receives the
before-instance of the same content type (`dm.beforeRequest contentType`)
when it exists and `none` otherwise, and each property `runAfter` receives
the before-property of the same key when it exists and `none` otherwise. -/
theorem afterContentTypeResults_elim (requestRule : FlatRequestRule)
    (ctx : RuleContext) (a : RequestAssertions) (request : RequestNode)
    (dm : DocumentModel) (afterOperation : Operation) (contentType : String) :
    afterContentTypeResults requestRule ctx a request dm afterOperation
        contentType
      = Option.elim (dm.afterRequest contentType) []
          (fun afterRequest =>
            if matcherAccepts requestRule.matches_ afterRequest ctx then
              (a.body.runAfter (dm.beforeRequest contentType) afterRequest
                  (bodyChangeAt request contentType)).map
                (fun assertionResult =>
                  createRequestBodyResult assertionResult afterRequest
                    afterOperation requestRule.toRequestRule)
              ++ afterRequest.properties.flatMap
                (fun kp =>
                  (a.property.runAfter
                      ((dm.beforeRequest contentType).bind
                        (fun br => List.lookup kp.1 br.properties))
                      kp.2 (fieldChangeAt request contentType kp.1)).map
                    (fun assertionResult =>
                      createRequestPropertyResult assertionResult kp.2
                        afterRequest afterOperation requestRule.toRequestRule))
            else []) := by
  unfold afterContentTypeResults
  cases dm.afterRequest contentType <;> rfl

/-- `beforePassResults` in `Option.elim` form: one rule-body invocation with
the before-context serves the whole pass. -/
theorem beforePassResults_elim (requestRule : FlatRequestRule)
    (request : RequestNode) (custom : CustomRuleContext) (dm : DocumentModel) :
    beforePassResults requestRule request custom dm
      = Option.elim dm.beforeOperation []
          (fun beforeOperation =>
            (request.bodies.map Prod.fst).flatMap
              (beforeContentTypeResults requestRule
                (createBeforeOperationContext beforeOperation custom)
                (requestRule.rule
                  (createBeforeOperationContext beforeOperation custom))
                request dm beforeOperation)) := by
  unfold beforePassResults
  cases dm.beforeOperation <;> rfl

/-- `afterPassResults` in `Option.elim` form: one rule-body invocation with
the after-context (carrying the operation's change classification) serves
the whole pass. -/
theorem afterPassResults_elim (operation : EndpointNode)
    (requestRule : FlatRequestRule) (request : RequestNode)
    (custom : CustomRuleContext) (dm : DocumentModel) :
    afterPassResults operation requestRule request custom dm
      = Option.elim dm.afterOperation []
          (fun afterOperation =>
            (request.bodies.map Prod.fst).flatMap
              (afterContentTypeResults requestRule
                (createAfterOperationContext afterOperation custom
                  operation.change)
                (requestRule.rule
                  (createAfterOperationContext afterOperation custom
                    operation.change))
                request dm afterOperation)) := by
  unfold afterPassResults
  cases dm.afterOperation <;> rfl

/-! ### Claim theorems -/

/-- **C2.** `getRequestRules` outputs the request rules in declaration order
with rulesets expanded in place (flattening distributes over concatenation);
a standalone request rule passes through unchanged with an empty alias
chain; a rule contained in a ruleset receives the AND-combined matcher, the
alias chain, and a docs link that is its own when present, else the
ruleset's, else absent; rules of other target kinds contribute nothing; and
the combined matcher is the logical AND of the ruleset's matcher and the
rule's own matcher (a missing matcher accepting everything). -/
theorem getRequestRules_flattening :
    (∀ xs ys : List Rules,
      getRequestRules (xs ++ ys) = getRequestRules xs ++ getRequestRules ys)
    ∧ (∀ r : RequestRule,
      getRequestRules [Rules.request r] = [{ toRequestRule := r, aliases := [] }])
    ∧ (∀ rs : Ruleset,
      getRequestRules [Rules.ruleset rs]
        = rs.rules.flatMap (fun member =>
            match member with
            | RulesetMember.request rule =>
                [{
                  toRequestRule := { rule with
                    matches_ := some (createRulesetMatcher rule.matches_ rs.matches_),
                    docsLink := rule.docsLink.orElse (fun _ => rs.docsLink) },
                  aliases := getRuleAliases rs.name rule.name }]
            | RulesetMember.other => []))
    ∧ getRequestRules [Rules.other] = []
    ∧ (∀ (ruleMatcher rulesetMatcher : Option (RequestBody → RuleContext → Bool))
        (item : RequestBody) (context : RuleContext),
      createRulesetMatcher ruleMatcher rulesetMatcher item context
        = (matcherAccepts rulesetMatcher item context
            && matcherAccepts ruleMatcher item context)) := by
  refine ⟨?_, ?_, ?_, ?_, ?_⟩
  · intro xs ys
    simp [getRequestRules_eq_flatMap]
  · intro r
    simp [getRequestRules_eq_flatMap]
  · intro rs
    simp [getRequestRules_eq_flatMap]
  · simp [getRequestRules_eq_flatMap]
  · intro ruleMatcher rulesetMatcher item context
    cases ruleMatcher <;> cases rulesetMatcher <;> rfl

/-- **C5.** The Result list of `runRequestRules` is deterministically
ordered: the flattened rules contribute in flattening (declaration) order;
for each rule the whole before pass precedes the whole after pass; and
within each pass the content types are visited in the document's insertion
order (`request.bodies.map Prod.fst`), as are, inside
`beforeContentTypeResults` / `afterContentTypeResults`, the properties of a
body. -/
theorem runRequestRules_deterministic_order (operation : EndpointNode)
    (request : RequestNode) (rules : List Rules) (custom : CustomRuleContext)
    (dm : DocumentModel) :
    runRequestRules operation request rules custom dm
      = (getRequestRules rules).flatMap
          (fun r => beforePassResults r request custom dm
            ++ afterPassResults operation r request custom dm)
    ∧ (∀ r : FlatRequestRule,
        beforePassResults r request custom dm
          = Option.elim dm.beforeOperation []
              (fun beforeOperation =>
                (request.bodies.map Prod.fst).flatMap
                  (beforeContentTypeResults r
                    (createBeforeOperationContext beforeOperation custom)
                    (r.rule (createBeforeOperationContext beforeOperation custom))
                    request dm beforeOperation)))
    ∧ (∀ r : FlatRequestRule,
        afterPassResults operation r request custom dm
          = Option.elim dm.afterOperation []
              (fun afterOperation =>
                (request.bodies.map Prod.fst).flatMap
                  (afterContentTypeResults r
                    (createAfterOperationContext afterOperation custom
                      operation.change)
                    (r.rule (createAfterOperationContext afterOperation custom
                      operation.change))
                    request dm afterOperation))) :=
  ⟨runRequestRules_structural operation request rules custom dm,
    fun r => beforePassResults_elim r request custom dm,
    fun r => afterPassResults_elim operation r request custom dm⟩

/-- **C1.** Per flattened rule and pass, the rule body is invoked once with
the context of that pass (the before-context or the after-context) and the
collector it populates serves every content type of that pass — before any
matcher is consulted; the before pass runs `runBefore` only for content
types whose before-instance exists; the after pass runs `runAfter` only for
content types whose after-instance exists, handing it the before-instance of
the same content type when one exists and `none` otherwise, and handing each
property `runAfter` the before-property of the same key when one exists and
`none` otherwise. -/
theorem runRequestRules_pass_protocol (operation : EndpointNode)
    (request : RequestNode) (rules : List Rules) (custom : CustomRuleContext)
    (dm : DocumentModel) :
    runRequestRules operation request rules custom dm
      = (getRequestRules rules).flatMap
          (fun r => beforePassResults r request custom dm
            ++ afterPassResults operation r request custom dm)
    ∧ (∀ r : FlatRequestRule,
        beforePassResults r request custom dm
          = Option.elim dm.beforeOperation []
              (fun beforeOperation =>
                (request.bodies.map Prod.fst).flatMap
                  (beforeContentTypeResults r
                    (createBeforeOperationContext beforeOperation custom)
                    (r.rule (createBeforeOperationContext beforeOperation custom))
                    request dm beforeOperation)))
    ∧ (∀ r : FlatRequestRule,
        afterPassResults operation r request custom dm
          = Option.elim dm.afterOperation []
              (fun afterOperation =>
                (request.bodies.map Prod.fst).flatMap
                  (afterContentTypeResults r
                    (createAfterOperationContext afterOperation custom
                      operation.change)
                    (r.rule (createAfterOperationContext afterOperation custom
                      operation.change))
                    request dm afterOperation)))
    ∧ (∀ (r : FlatRequestRule) (ctx : RuleContext) (a : RequestAssertions)
        (beforeOperation : Operation) (contentType : String),
        beforeContentTypeResults r ctx a request dm beforeOperation contentType
          = Option.elim (dm.beforeRequest contentType) []
              (fun beforeRequest =>
                if matcherAccepts r.matches_ beforeRequest ctx then
                  (a.body.runBefore beforeRequest
                      (bodyChangeAt request contentType)).map
                    (fun assertionResult =>
                      createRequestBodyResult assertionResult beforeRequest
                        beforeOperation r.toRequestRule)
                  ++ beforeRequest.properties.flatMap
                    (fun kp =>
                      (a.property.runBefore kp.2
                          (fieldChangeAt request contentType kp.1)).map
                        (fun assertionResult =>
                          createRequestPropertyResult assertionResult kp.2
                            beforeRequest beforeOperation r.toRequestRule))
                else []))
    ∧ (∀ (r : FlatRequestRule) (ctx : RuleContext) (a : RequestAssertions)
        (afterOperation : Operation) (contentType : String),
        afterContentTypeResults r ctx a request dm afterOperation contentType
          = Option.elim (dm.afterRequest contentType) []
              (fun afterRequest =>
                if matcherAccepts r.matches_ afterRequest ctx then
                  (a.body.runAfter (dm.beforeRequest contentType) afterRequest
                      (bodyChangeAt request contentType)).map
                    (fun assertionResult =>
                      createRequestBodyResult assertionResult afterRequest
                        afterOperation r.toRequestRule)
                  ++ afterRequest.properties.flatMap
                    (fun kp =>
                      (a.property.runAfter
                          ((dm.beforeRequest contentType).bind
                            (fun br => List.lookup kp.1 br.properties))
                          kp.2 (fieldChangeAt request contentType kp.1)).map
                        (fun assertionResult =>
                          createRequestPropertyResult assertionResult kp.2
                            afterRequest afterOperation r.toRequestRule))
                else [])) :=
  ⟨runRequestRules_structural operation request rules custom dm,
    fun r => beforePassResults_elim r request custom dm,
    fun r => afterPassResults_elim operation r request custom dm,
    fun r ctx a beforeOperation contentType =>
      beforeContentTypeResults_elim r ctx a request dm beforeOperation contentType,
    fun r ctx a afterOperation contentType =>
      afterContentTypeResults_elim r ctx a request dm afterOperation contentType⟩

/-- Every Result contributed by one content type of a before pass carries
the constant severity flags and the owning rule's name and docs link. -/
theorem mem_beforeContentTypeResults_fields {res : Result}
    {requestRule : FlatRequestRule} {ctx : RuleContext} {a : RequestAssertions}
    {request : RequestNode} {dm : DocumentModel} {beforeOperation : Operation}
    {contentType : String}
    (h : res ∈ beforeContentTypeResults requestRule ctx a request dm
      beforeOperation contentType) :
    res.isMust = true ∧ res.isShould = false ∧ res.name = requestRule.name
      ∧ res.docsLink = requestRule.docsLink := by
  unfold beforeContentTypeResults at h
  split at h
  · exact absurd h (List.not_mem_nil _)
  · split at h
    · rcases List.mem_append.mp h with hm | hm
      · rcases List.mem_map.mp hm with ⟨ar, -, rfl⟩
        exact ⟨rfl, rfl, rfl, rfl⟩
      · rcases List.mem_flatMap.mp hm with ⟨kp, -, hm2⟩
        rcases List.mem_map.mp hm2 with ⟨ar, -, rfl⟩
        exact ⟨rfl, rfl, rfl, rfl⟩
    · exact absurd h (List.not_mem_nil _)

/-- Every Result contributed by one content type of an after pass carries
the constant severity flags and the owning rule's name and docs link. -/
theorem mem_afterContentTypeResults_fields {res : Result}
    {requestRule : FlatRequestRule} {ctx : RuleContext} {a : RequestAssertions}
    {request : RequestNode} {dm : DocumentModel} {afterOperation : Operation}
    {contentType : String}
    (h : res ∈ afterContentTypeResults requestRule ctx a request dm
      afterOperation contentType) :
    res.isMust = true ∧ res.isShould = false ∧ res.name = requestRule.name
      ∧ res.docsLink = requestRule.docsLink := by
  unfold afterContentTypeResults at h
  split at h
  · exact absurd h (List.not_mem_nil _)
  · split at h
    · rcases List.mem_append.mp h with hm | hm
      · rcases List.mem_map.mp hm with ⟨ar, -, rfl⟩
        exact ⟨rfl, rfl, rfl, rfl⟩
      · rcases List.mem_flatMap.mp hm with ⟨kp, -, hm2⟩
        rcases List.mem_map.mp hm2 with ⟨ar, -, rfl⟩
        exact ⟨rfl, rfl, rfl, rfl⟩
    · exact absurd h (List.not_mem_nil _)

/-- Every Result of one rule's before pass carries the constant severity
flags and that rule's name and docs link. -/
theorem mem_beforePassResults_fields {res : Result}
    {requestRule : FlatRequestRule} {request : RequestNode}
    {custom : CustomRuleContext} {dm : DocumentModel}
    (h : res ∈ beforePassResults requestRule request custom dm) :
    res.isMust = true ∧ res.isShould = false ∧ res.name = requestRule.name
      ∧ res.docsLink = requestRule.docsLink := by
  rw [beforePassResults_elim] at h
  cases hbop : dm.beforeOperation with
  | none =>
      rw [hbop] at h
      exact absurd h (List.not_mem_nil _)
  | some beforeOperation =>
      rw [hbop] at h
      rcases List.mem_flatMap.mp h with ⟨ct, -, h2⟩
      exact mem_beforeContentTypeResults_fields h2

/-- Every Result of one rule's after pass carries the constant severity
flags and that rule's name and docs link. -/
theorem mem_afterPassResults_fields {res : Result} {operation : EndpointNode}
    {requestRule : FlatRequestRule} {request : RequestNode}
    {custom : CustomRuleContext} {dm : DocumentModel}
    (h : res ∈ afterPassResults operation requestRule request custom dm) :
    res.isMust = true ∧ res.isShould = false ∧ res.name = requestRule.name
      ∧ res.docsLink = requestRule.docsLink := by
  rw [afterPassResults_elim] at h
  cases haop : dm.afterOperation with
  | none =>
      rw [haop] at h
      exact absurd h (List.not_mem_nil _)
  | some afterOperation =>
      rw [haop] at h
      rcases List.mem_flatMap.mp h with ⟨ct, -, h2⟩
      exact mem_afterContentTypeResults_fields h2

/-- Every Result of a run comes from some flattened rule and carries the
constant severity flags and that rule's name and docs link. -/
theorem mem_runRequestRules_fields {res : Result} {operation : EndpointNode}
    {request : RequestNode} {rules : List Rules} {custom : CustomRuleContext}
    {dm : DocumentModel}
    (h : res ∈ runRequestRules operation request rules custom dm) :
    ∃ requestRule ∈ getRequestRules rules,
      res.isMust = true ∧ res.isShould = false ∧ res.name = requestRule.name
        ∧ res.docsLink = requestRule.docsLink := by
  rw [runRequestRules_structural] at h
  rcases List.mem_flatMap.mp h with ⟨r, hr, hmem⟩
  refine ⟨r, hr, ?_⟩
  rcases List.mem_append.mp hmem with hmem | hmem
  · exact mem_beforePassResults_fields hmem
  · exact mem_afterPassResults_fields hmem

/-- **C8.** Every Result produced by `runRequestRules` has `isMust = true`
and `isShould = false`: the flags are the rule's severity tier, and since
request rules declare no tier, the default "must" applies to every Result —
in particular `isMust` and `isShould` are never both true. -/
theorem result_severity_flags (operation : EndpointNode)
    (request : RequestNode) (rules : List Rules) (custom : CustomRuleContext)
    (dm : DocumentModel) :
    (runRequestRules operation request rules custom dm).all
      (fun result => result.isMust && !result.isShould) = true := by
  rw [List.all_eq_true]
  intro result hmem
  obtain ⟨r, -, h1, h2, -, -⟩ := mem_runRequestRules_fields hmem
  rw [h1, h2]
  rfl

/-- **C7.** A raised predicate failure — a structured `RuleError` with a
message or an unstructured exception — is converted, at the granularity of
that one predicate invocation, into an outcome with `passed = false` and
`error` set to the message (the wrapper `runAssertion` is total, so the
evaluation never crashes); a predicate that returns yields `passed = true`
with no error; and the result assemblers pass `passed` and `error` through
unchanged. -/
theorem assertion_failure_conversion :
    (∀ (type : AssertionLifecycle) (condition : String)
        (changeOrFact : Option ChangeType) (message : String),
      runAssertion type condition changeOrFact
          (Except.error (RuleFailure.ruleError message))
        = { passed := false, error := some message, type := type,
            condition := condition, changeOrFact := changeOrFact }
      ∧ runAssertion type condition changeOrFact
          (Except.error (RuleFailure.exception message))
        = { passed := false, error := some message, type := type,
            condition := condition, changeOrFact := changeOrFact })
    ∧ (∀ (type : AssertionLifecycle) (condition : String)
        (changeOrFact : Option ChangeType),
      runAssertion type condition changeOrFact (Except.ok ())
        = { passed := true, error := none, type := type,
            condition := condition, changeOrFact := changeOrFact })
    ∧ (∀ (assertionResult : AssertionResult) (request : RequestBody)
        (operation : Operation) (rule : RequestRule),
      (createRequestBodyResult assertionResult request operation rule).passed
          = assertionResult.passed
        ∧ (createRequestBodyResult assertionResult request operation rule).error
          = assertionResult.error)
    ∧ (∀ (assertionResult : AssertionResult) (property : Field)
        (request : RequestBody) (operation : Operation) (rule : RequestRule),
      (createRequestPropertyResult assertionResult property request operation
          rule).passed = assertionResult.passed
        ∧ (createRequestPropertyResult assertionResult property request
            operation rule).error = assertionResult.error) :=
  ⟨fun _ _ _ _ => ⟨rfl, rfl⟩, fun _ _ _ => rfl,
    fun _ _ _ _ => ⟨rfl, rfl⟩, fun _ _ _ _ _ => ⟨rfl, rfl⟩⟩

/-- **C9.** With checks enabled, `generateRuleRunner` constructs the
returned `RuleRunner` from exactly the rulesets the resolution collaborator
resolved, and its `console.error` output is exactly that collaborator's
warning list, in order — the warnings are surfaced for display, not dropped,
and they do not prevent the run from proceeding with the resolved
rulesets. -/
theorem generateRuleRunner_keeps_warnings (config : List RulesetRef)
    (standardRulesets : List String)
    (getManyRulesetsByName : List String → List (Option HostedRulesetEntry))
    (prepareRulesets : List RulesetRef → List (String × String) →
      List (String × String × String) → PrepareRulesetsResult) :
    (generateRuleRunner config true standardRulesets getManyRulesetsByName
        prepareRulesets).runner
      = (prepareRulesets config (classifyRulesetRefs standardRulesets config).2
          (collectHostedRulesets (getManyRulesetsByName
            (classifyRulesetRefs standardRulesets config).1))).rulesets
    ∧ (generateRuleRunner config true standardRulesets getManyRulesetsByName
        prepareRulesets).errorLog
      = (prepareRulesets config (classifyRulesetRefs standardRulesets config).2
          (collectHostedRulesets (getManyRulesetsByName
            (classifyRulesetRefs standardRulesets config).1))).warnings := by
  constructor
  · rfl
  · exact (foldl_push_eq_flatMap _ (fun w => [w]) (fun _ _ => rfl) _ []).trans
      (by simp)

/-- **C4.** Matcher gating: for a rule with a matcher, whenever the matcher
returns false for the request-body instance of a content type in a pass's
context, that content type contributes zero Results in that pass, whatever
assertions the rule body registered; consequently, when it returns false for
both passes of the only content type, the whole run yields no Result for the
rule. -/
theorem runRequestRules_matcher_gating (r : RequestRule)
    (m : RequestBody → RuleContext → Bool) (hm : r.matches_ = some m)
    (dm : DocumentModel) :
    (∀ (ctx : RuleContext) (a : RequestAssertions) (request : RequestNode)
        (beforeOperation : Operation) (beforeReq : RequestBody) (ct : String),
      dm.beforeRequest ct = some beforeReq → m beforeReq ctx = false →
      beforeContentTypeResults { toRequestRule := r, aliases := [] } ctx a
        request dm beforeOperation ct = [])
    ∧ (∀ (ctx : RuleContext) (a : RequestAssertions) (request : RequestNode)
        (afterOperation : Operation) (afterReq : RequestBody) (ct : String),
      dm.afterRequest ct = some afterReq → m afterReq ctx = false →
      afterContentTypeResults { toRequestRule := r, aliases := [] } ctx a
        request dm afterOperation ct = [])
    ∧ (∀ (operation : EndpointNode) (node : BodyNode) (contentType : String)
        (custom : CustomRuleContext),
      (∀ (beforeOperation : Operation) (beforeReq : RequestBody),
        dm.beforeOperation = some beforeOperation →
        dm.beforeRequest contentType = some beforeReq →
        m beforeReq (createBeforeOperationContext beforeOperation custom) = false) →
      (∀ (afterOperation : Operation) (afterReq : RequestBody),
        dm.afterOperation = some afterOperation →
        dm.afterRequest contentType = some afterReq →
        m afterReq (createAfterOperationContext afterOperation custom
          operation.change) = false) →
      runRequestRules operation { bodies := [(contentType, node)] }
        [Rules.request r] custom dm = []) := by
  refine ⟨?_, ?_, ?_⟩
  · intro ctx a request beforeOperation beforeReq ct h1 h2
    rw [beforeContentTypeResults_elim, h1]
    simp [matcherAccepts, hm, h2]
  · intro ctx a request afterOperation afterReq ct h1 h2
    rw [afterContentTypeResults_elim, h1]
    simp [matcherAccepts, hm, h2]
  · intro operation node contentType custom hBefore hAfter
    rw [runRequestRules_structural]
    have hflat : getRequestRules [Rules.request r]
        = [{ toRequestRule := r, aliases := [] }] := by
      simp [getRequestRules_eq_flatMap]
    rw [hflat, List.flatMap_cons, List.flatMap_nil, List.append_nil]
    have hb : beforePassResults { toRequestRule := r, aliases := [] }
        { bodies := [(contentType, node)] } custom dm = [] := by
      rw [beforePassResults_elim]
      cases hbop : dm.beforeOperation with
      | none => rfl
      | some beforeOperation =>
          simp only [Option.elim_some, List.map_cons, List.map_nil,
            List.flatMap_cons, List.flatMap_nil, List.append_nil]
          rw [beforeContentTypeResults_elim]
          cases hbr : dm.beforeRequest contentType with
          | none => rfl
          | some beforeReq =>
              have h2 := hBefore beforeOperation beforeReq hbop hbr
              simp [matcherAccepts, hm, h2]
    have ha : afterPassResults operation { toRequestRule := r, aliases := [] }
        { bodies := [(contentType, node)] } custom dm = [] := by
      rw [afterPassResults_elim]
      cases haop : dm.afterOperation with
      | none => rfl
      | some afterOperation =>
          simp only [Option.elim_some, List.map_cons, List.map_nil,
            List.flatMap_cons, List.flatMap_nil, List.append_nil]
          rw [afterContentTypeResults_elim]
          cases har : dm.afterRequest contentType with
          | none => rfl
          | some afterReq =>
              have h2 := hAfter afterOperation afterReq haop har
              simp [matcherAccepts, hm, h2]
    rw [hb, ha]
    rfl

/-- Closed witness for the matcher-gating theorem: a rule whose matcher
rejects everything produces no Result on the sample inputs. -/
theorem runRequestRules_matcher_gating_witness :
    runRequestRules sampleEndpointNode
        { bodies := [("application/json", sampleBodyNode)] }
        [Rules.request rejectAllRule] "ctx" sampleDocumentModel = [] :=
  (runRequestRules_matcher_gating rejectAllRule (fun _ _ => false) rfl
      sampleDocumentModel).2.2 sampleEndpointNode sampleBodyNode
    "application/json" "ctx" (fun _ _ _ _ => rfl) (fun _ _ _ _ => rfl)

/-- **C10.** The matcher is only ever consulted on request-body instances:
when it rejects the body of a content type in a pass, that content type
contributes no Result in that pass — neither for the body nor for any of its
properties, however many property assertions were registered; when it
accepts the body, the body results are followed by the results of all
applicable property assertions for every property, with no further
per-property matcher check. -/
theorem matcher_gates_bodies_not_properties (flat : FlatRequestRule)
    (m : RequestBody → RuleContext → Bool) (hm : flat.matches_ = some m)
    (request : RequestNode) (dm : DocumentModel) :
    (∀ (ctx : RuleContext) (a : RequestAssertions)
        (beforeOperation : Operation) (ct : String) (beforeReq : RequestBody),
      dm.beforeRequest ct = some beforeReq → m beforeReq ctx = false →
      beforeContentTypeResults flat ctx a request dm beforeOperation ct = [])
    ∧ (∀ (ctx : RuleContext) (a : RequestAssertions)
        (beforeOperation : Operation) (ct : String) (beforeReq : RequestBody),
      dm.beforeRequest ct = some beforeReq → m beforeReq ctx = true →
      beforeContentTypeResults flat ctx a request dm beforeOperation ct
        = (a.body.runBefore beforeReq (bodyChangeAt request ct)).map
            (fun assertionResult =>
              createRequestBodyResult assertionResult beforeReq
                beforeOperation flat.toRequestRule)
          ++ beforeReq.properties.flatMap
            (fun kp =>
              (a.property.runBefore kp.2 (fieldChangeAt request ct kp.1)).map
                (fun assertionResult =>
                  createRequestPropertyResult assertionResult kp.2 beforeReq
                    beforeOperation flat.toRequestRule)))
    ∧ (∀ (ctx : RuleContext) (a : RequestAssertions)
        (afterOperation : Operation) (ct : String) (afterReq : RequestBody),
      dm.afterRequest ct = some afterReq → m afterReq ctx = false →
      afterContentTypeResults flat ctx a request dm afterOperation ct = [])
    ∧ (∀ (ctx : RuleContext) (a : RequestAssertions)
        (afterOperation : Operation) (ct : String) (afterReq : RequestBody),
      dm.afterRequest ct = some afterReq → m afterReq ctx = true →
      afterContentTypeResults flat ctx a request dm afterOperation ct
        = (a.body.runAfter (dm.beforeRequest ct) afterReq
              (bodyChangeAt request ct)).map
            (fun assertionResult =>
              createRequestBodyResult assertionResult afterReq
                afterOperation flat.toRequestRule)
          ++ afterReq.properties.flatMap
            (fun kp =>
              (a.property.runAfter
                  ((dm.beforeRequest ct).bind
                    (fun br => List.lookup kp.1 br.properties))
                  kp.2 (fieldChangeAt request ct kp.1)).map
                (fun assertionResult =>
                  createRequestPropertyResult assertionResult kp.2 afterReq
                    afterOperation flat.toRequestRule))) := by
  refine ⟨?_, ?_, ?_, ?_⟩
  · intro ctx a beforeOperation ct beforeReq h1 h2
    rw [beforeContentTypeResults_elim, h1]
    simp [matcherAccepts, hm, h2]
  · intro ctx a beforeOperation ct beforeReq h1 h2
    rw [beforeContentTypeResults_elim, h1]
    simp [matcherAccepts, hm, h2]
  · intro ctx a afterOperation ct afterReq h1 h2
    rw [afterContentTypeResults_elim, h1]
    simp [matcherAccepts, hm, h2]
  · intro ctx a afterOperation ct afterReq h1 h2
    rw [afterContentTypeResults_elim, h1]
    simp [matcherAccepts, hm, h2]

/-- Closed witness for the body-granularity theorem: with an accept-all
matcher, the sample before pass contributes exactly the body requirement
result (the sample body registers no property assertions, and the sample
body's one property contributes its empty result list unconditionally). -/
theorem matcher_gates_bodies_not_properties_witness :
    beforeContentTypeResults { toRequestRule := acceptAllRule, aliases := [] }
        (createBeforeOperationContext sampleOperation "ctx")
        (acceptAllRule.rule (createBeforeOperationContext sampleOperation "ctx"))
        sampleRequestNode sampleDocumentModel sampleOperation "application/json"
      = [{ where_ := "requirement request with content-type: application/json in operation: GET /api/users",
           isMust := true, change := none, name := "always-matches",
           condition := "has a type", passed := true, error := none,
           docsLink := none, isShould := false }] := by
  have h := (matcher_gates_bodies_not_properties
      { toRequestRule := acceptAllRule, aliases := [] } (fun _ _ => true) rfl
      sampleRequestNode sampleDocumentModel).2.1
    (createBeforeOperationContext sampleOperation "ctx")
    (acceptAllRule.rule (createBeforeOperationContext sampleOperation "ctx"))
    sampleOperation "application/json" sampleBody (by decide) rfl
  rw [h]
  decide

/-- **C6.** Exhaustive execution: `runBefore` produces one outcome per
registered requirement assertion plus, when the classification is Removed,
one per removed assertion; `runAfter` produces one per requirement plus,
when applicable, one per added (classification Added) and one per changed
assertion (classification Changed with a before-instance) — the counts
depend only on the registrations and the classification, never on any
predicate's outcome, so no failure short-circuits the rest; and the runner
emits exactly one Result per outcome: an isolated (entity, before-pass)
yields precisely the mapped `runBefore` outcome lists of the body and of
each property. -/
theorem assertion_exhaustive_execution :
    (∀ (α : Type) (a : Assertions α) (instanceBefore : α)
        (change : Option ChangeType),
      (a.runBefore instanceBefore change).length
        = a.requirement.length
          + (if change = some ChangeType.removed then a.removed.length else 0))
    ∧ (∀ (α : Type) (a : Assertions α) (instanceBefore : Option α)
        (instanceAfter : α) (change : Option ChangeType),
      (a.runAfter instanceBefore instanceAfter change).length
        = a.requirement.length
          + (if change = some ChangeType.added then a.added.length else 0)
          + (match change, instanceBefore with
              | some ChangeType.changed, some _ => a.changed.length
              | _, _ => 0))
    ∧ (∀ (r : RequestRule) (operation : EndpointNode) (node : BodyNode)
        (contentType : String) (custom : CustomRuleContext) (bop : Operation)
        (beforeReq : RequestBody),
      runRequestRules operation { bodies := [(contentType, node)] }
          [Rules.request { r with matches_ := none }] custom
          { beforeOperation := some bop, afterOperation := none,
            beforeRequest := fun _ => some beforeReq,
            afterRequest := fun _ => none }
        = ((r.rule (createBeforeOperationContext bop custom)).body.runBefore
              beforeReq
              (bodyChangeAt { bodies := [(contentType, node)] } contentType)).map
            (fun assertionResult =>
              createRequestBodyResult assertionResult beforeReq bop
                { r with matches_ := none })
          ++ beforeReq.properties.flatMap
            (fun kp =>
              ((r.rule (createBeforeOperationContext bop custom)).property.runBefore
                  kp.2
                  (fieldChangeAt { bodies := [(contentType, node)] } contentType
                    kp.1)).map
                (fun assertionResult =>
                  createRequestPropertyResult assertionResult kp.2 beforeReq bop
                    { r with matches_ := none }))) := by
  refine ⟨?_, ?_, ?_⟩
  · intro α a instanceBefore change
    by_cases h : change = some ChangeType.removed <;>
      simp [Assertions.runBefore, h]
  · intro α a instanceBefore instanceAfter change
    rcases change with - | ct
    · cases instanceBefore <;> simp [Assertions.runAfter]
    · cases ct <;> cases instanceBefore <;> simp [Assertions.runAfter]
  · intro r operation node contentType custom bop beforeReq
    rw [runRequestRules_structural]
    have hflat : getRequestRules [Rules.request { r with matches_ := none }]
        = [{ toRequestRule := { r with matches_ := none }, aliases := [] }] := by
      simp [getRequestRules_eq_flatMap]
    rw [hflat, List.flatMap_cons, List.flatMap_nil, List.append_nil,
      beforePassResults_elim, afterPassResults_elim]
    simp only [Option.elim_some, Option.elim_none, List.map_cons, List.map_nil,
      List.flatMap_cons, List.flatMap_nil, List.append_nil]
    rw [beforeContentTypeResults_elim]
    simp [matcherAccepts]

/-- **C3 (counterexample).** Running the ruleset "Breaking Changes" with the
nested rule "no-required-removal" on the sample inputs produces Results
whose `name` field is the rule's own name, not the aliased traceable name
"Breaking Changes > no-required-removal" (which the flattened rule's alias
chain would yield). -/
theorem nested_rule_name_not_aliased_counterexample :
    (runRequestRules sampleEndpointNode sampleRequestNode
        [Rules.ruleset breakingChangesRuleset] "ctx"
        sampleDocumentModel).map Result.name
      = ["no-required-removal", "no-required-removal"]
    ∧ (getRequestRules [Rules.ruleset breakingChangesRuleset]).map traceableName
      = ["Breaking Changes > no-required-removal"]
    ∧ ¬ (∀ result ∈ runRequestRules sampleEndpointNode sampleRequestNode
          [Rules.ruleset breakingChangesRuleset] "ctx" sampleDocumentModel,
          result.name = "Breaking Changes > no-required-removal") := by
  exact ⟨by decide, by decide, by decide⟩

/-- **C3 (amended).** For every rule nested inside any ruleset of the rule
list, each Result produced for it reports the rule's own name in its `name`
field: every Result of a run carries the name of the flattened rule it came
from, every Result of a flattened rule's before or after pass carries that
rule's name, and the flattened rule produced for a nested rule keeps the
rule's own name while recording the ruleset's name separately in its alias
chain (`aliases`), from which the aliased traceable name
"<ruleset.name> > <rule.name>" can be formed, rather than being joined into
the Result's `name`. -/
theorem nested_rule_results_report_own_name (operation : EndpointNode)
    (request : RequestNode) (rules : List Rules) (custom : CustomRuleContext)
    (dm : DocumentModel) :
    (∀ result ∈ runRequestRules operation request rules custom dm,
      ∃ requestRule ∈ getRequestRules rules, result.name = requestRule.name)
    ∧ (∀ (requestRule : FlatRequestRule) (result : Result),
        result ∈ beforePassResults requestRule request custom dm
            ++ afterPassResults operation requestRule request custom dm →
        result.name = requestRule.name)
    ∧ (∀ (rs : Ruleset) (r : RequestRule),
        Rules.ruleset rs ∈ rules → RulesetMember.request r ∈ rs.rules →
        ∃ requestRule ∈ getRequestRules rules,
          requestRule.name = r.name
            ∧ requestRule.aliases = getRuleAliases rs.name r.name) := by
  refine ⟨?_, ?_, ?_⟩
  · intro result hmem
    obtain ⟨requestRule, hflat, -, -, hname, -⟩ :=
      mem_runRequestRules_fields hmem
    exact ⟨requestRule, hflat, hname⟩
  · intro requestRule result hmem
    rcases List.mem_append.mp hmem with hmem | hmem
    · exact (mem_beforePassResults_fields hmem).2.2.1
    · exact (mem_afterPassResults_fields hmem).2.2.1
  · intro rs r hrs hr
    refine ⟨{
      toRequestRule := { r with
        matches_ := some (createRulesetMatcher r.matches_ rs.matches_),
        docsLink := r.docsLink.orElse (fun _ => rs.docsLink) },
      aliases := getRuleAliases rs.name r.name }, ?_, rfl, rfl⟩
    rw [getRequestRules_eq_flatMap]
    refine List.mem_flatMap.mpr ⟨Rules.ruleset rs, hrs, ?_⟩
    exact List.mem_flatMap.mpr
      ⟨RulesetMember.request r, hr, List.mem_singleton.mpr rfl⟩

/-- Closed witness for the amended naming theorem: the explicit first Result
of the sample "Breaking Changes" ruleset run reports the nested rule's own
name, applied at the flattened form of that nested rule. -/
theorem nested_rule_results_report_own_name_witness :
    sampleNestedResult.name = noRequiredRemovalRule.name :=
  (nested_rule_results_report_own_name sampleEndpointNode sampleRequestNode
      [Rules.ruleset breakingChangesRuleset] "ctx" sampleDocumentModel).2.1
    { toRequestRule := { noRequiredRemovalRule with
        matches_ := some (createRulesetMatcher noRequiredRemovalRule.matches_
          breakingChangesRuleset.matches_),
        docsLink := noRequiredRemovalRule.docsLink.orElse
          (fun _ => breakingChangesRuleset.docsLink) },
      aliases := getRuleAliases breakingChangesRuleset.name
        noRequiredRemovalRule.name }
    sampleNestedResult (by decide)

end Optic
